import Mathlib

/-!
# Verification of the COSMA interval algebra

Shallow embedding of `src/cosma/interval.cpp` (classes `cosma::Interval` and
`cosma::Interval2D`).  The C++ fields `start_`, `end_` are `int`, but every
successfully constructed interval satisfies `0 ≤ start_ ≤ end_`, so intervals
are modelled with `Nat` fields together with the validity predicate
`first ≤ last`; the throwing constructor is modelled separately on `Int`
inputs.  All arithmetic on valid inputs is nonnegative, so `Nat` arithmetic
coincides with the C++ `int`/`size_t` arithmetic on the domains the theorems
quantify over.
-/

set_option autoImplicit false

namespace Cosma

/-- Embedding of `cosma::Interval`: the closed range `[first, last]`
(`start_`/`end_` in the source, read through `first()`/`last()`). -/
structure Interval where
  first : Nat
  last : Nat
  deriving DecidableEq, Repr

/-- `Interval::Interval(int start, int end)`: throws a `runtime_error` when
`start < 0 || end < 0` or when `start > end`; otherwise stores the bounds.
The throw is modelled as `none`. -/
def Interval.make (start e : Int) : Option Interval :=
  if start < 0 ∨ e < 0 then none
  else if start > e then none
  else some ⟨start.toNat, e.toNat⟩

/-- `Interval::length()`: `end_ - start_ + 1`. -/
def Interval.length (I : Interval) : Nat := I.last - I.first + 1

/-- `Interval::empty()`: `start_ == end_`. -/
def Interval.empty (I : Interval) : Bool := I.first == I.last

/-- `Interval::only_one()`: `length() == 1`. -/
def Interval.only_one (I : Interval) : Bool := I.length == 1

/-- `Interval::contains(int num)`: `num >= first() && num <= last()`. -/
def Interval.contains (I : Interval) (num : Nat) : Bool :=
  decide (num ≥ I.first) && decide (num ≤ I.last)

/-- `Interval::subinterval(int divisor, int box_index)`: when the length is
smaller than the divisor it returns a copy of the whole interval, otherwise
the `box_index`-th piece of the floor-based split. -/
def Interval.subinterval (I : Interval) (divisor box_index : Nat) : Interval :=
  if I.length < divisor then I
  else
    let s := I.length * box_index / divisor
    let e := I.length * (box_index + 1) / divisor - 1
    ⟨I.first + s, I.first + e⟩

/-- `Interval::divide_by(int divisor)`: `{*this}` when the length is smaller
than the divisor, otherwise the vector `subinterval(divisor, i)` for
`i = 0 … divisor-1`. -/
def Interval.divide_by (I : Interval) (divisor : Nat) : List Interval :=
  if I.length < divisor then [I]
  else (List.range divisor).map fun i => I.subinterval divisor i

/-- `Interval::locate_in_subinterval(int divisor, int elem)`: pair
`(subint_index, offset)` computed from the uniform chunk size
`subset_size = length() / divisor`. -/
def Interval.locate_in_subinterval (I : Interval) (divisor elem : Nat) : Nat × Nat :=
  let subset_size := I.length / divisor
  let relative := elem - I.first
  let subint_index := relative / subset_size
  let offset := relative - subint_index * subset_size
  (subint_index, offset)

/-- `Interval::locate_in_interval(int divisor, int subint_index, int
subint_offset)`: `subint_index * subset_size + subint_offset` with
`subset_size = length() / divisor`. -/
def Interval.locate_in_interval (I : Interval) (divisor subint_index subint_offset : Nat) : Nat :=
  let subset_size := I.length / divisor
  subint_index * subset_size + subint_offset

/-- Embedding of `cosma::Interval2D`: a pair of a row interval and a column
interval. -/
structure Interval2D where
  rows : Interval
  cols : Interval
  deriving DecidableEq, Repr

/-- `Interval2D::contains(int row, int col)`:
`rows.contains(row) && cols.contains(col)`. -/
def Interval2D.contains (P : Interval2D) (row col : Nat) : Bool :=
  P.rows.contains row && P.cols.contains col

/-- `Interval2D::local_index(int row, int col)`: `-1` when the point is not
contained, otherwise `(col - cols.first()) * rows.length() + (row -
rows.first())`. -/
def Interval2D.local_index (P : Interval2D) (row col : Nat) : Int :=
  if !(P.contains row col) then -1
  else ((col - P.cols.first) * P.rows.length + (row - P.rows.first) : Nat)

/-- `Interval2D::submatrix(int divisor, int index)`:
`Interval2D(rows, cols.subinterval(divisor, index))`. -/
def Interval2D.submatrix (P : Interval2D) (divisor index : Nat) : Interval2D :=
  ⟨P.rows, P.cols.subinterval divisor index⟩

/-! ## Helper lemmas on the floor split `i ↦ ⌊L·i/d⌋` -/

/-- Closed form of `subinterval` when the divisor fits in the length. -/
lemma subinterval_eq (I : Interval) (d i : Nat) (hdL : d ≤ I.length) :
    I.subinterval d i =
      ⟨I.first + I.length * i / d, I.first + (I.length * (i + 1) / d - 1)⟩ := by
  unfold Interval.subinterval
  rw [if_neg (by omega)]

/-- One step of the floor split advances strictly when `d ≤ L`. -/
lemma floor_step_lt (L d i : Nat) (hd : 0 < d) (hdL : d ≤ L) :
    L * i / d < L * (i + 1) / d := by
  have h1 : L * i + d ≤ L * (i + 1) := by
    rw [Nat.mul_succ]; omega
  have h2 : (L * i + d) / d ≤ L * (i + 1) / d := Nat.div_le_div_right h1
  have h3 : (L * i + d) / d = L * i / d + 1 := Nat.add_div_right _ hd
  omega

/-- The increment of the floor split in closed form. -/
lemma floor_step_eq (L d i : Nat) (hd : 0 < d) :
    L * (i + 1) / d = L * i / d + (L * i % d + L) / d := by
  have h : L * (i + 1) = d * (L * i / d) + (L * i % d + L) := by
    have := Nat.div_add_mod (L * i) d
    rw [Nat.mul_succ]
    omega
  rw [h, Nat.mul_add_div hd]

/-- Each piece of the floor split has at least `⌊L/d⌋` elements. -/
lemma step_lower (L d i : Nat) (hd : 0 < d) :
    L * i / d + L / d ≤ L * (i + 1) / d := by
  rw [floor_step_eq L d i hd]
  have h : L / d ≤ (L * i % d + L) / d := Nat.div_le_div_right (Nat.le_add_left _ _)
  exact Nat.add_le_add_left h _

/-- Each piece of the floor split has at most `⌊L/d⌋ + 1` elements. -/
lemma step_upper (L d i : Nat) (hd : 0 < d) :
    L * (i + 1) / d ≤ L * i / d + (L / d + 1) := by
  rw [floor_step_eq L d i hd]
  have h1 : L * i % d < d := Nat.mod_lt _ hd
  have h2 : (L * i % d + L) / d ≤ (L + d) / d := Nat.div_le_div_right (by omega)
  rw [Nat.add_div_right _ hd] at h2
  exact Nat.add_le_add_left h2 _

/-- The floor split exhausts `L` after `d` steps. -/
lemma floor_last (L d : Nat) (hd : 0 < d) : L * d / d = L :=
  Nat.mul_div_cancel L hd

/-- The length of a sub-interval is the increment of the floor split. -/
lemma subinterval_length_eq (I : Interval) (d i : Nat) (hd : 1 ≤ d) (hdL : d ≤ I.length) :
    (I.subinterval d i).length = I.length * (i + 1) / d - I.length * i / d := by
  rw [subinterval_eq I d i hdL]
  have h := floor_step_lt I.length d i (by omega) hdL
  show I.first + (I.length * (i + 1) / d - 1) - (I.first + I.length * i / d) + 1 = _
  generalize I.length * i / d = Y at h ⊢
  generalize I.length * (i + 1) / d = X at h ⊢
  omega

/-- Sub-interval lengths lie between `⌊L/d⌋` and `⌊L/d⌋ + 1`. -/
lemma subinterval_length_bounds (I : Interval) (d i : Nat) (hd : 1 ≤ d) (hdL : d ≤ I.length) :
    I.length / d ≤ (I.subinterval d i).length
      ∧ (I.subinterval d i).length ≤ I.length / d + 1 := by
  rw [subinterval_length_eq I d i hd hdL]
  have h1 := step_lower I.length d i (by omega)
  have h2 := step_upper I.length d i (by omega)
  generalize I.length * i / d = Y at h1 h2 ⊢
  generalize I.length * (i + 1) / d = X at h1 h2 ⊢
  generalize I.length / d = Q at h1 h2 ⊢
  omega

/-- Membership in a sub-interval, written with the floor split bounds. -/
lemma subinterval_contains_iff (I : Interval) (d i x : Nat)
    (hd : 1 ≤ d) (hdL : d ≤ I.length) :
    ((I.subinterval d i).contains x = true) ↔
      (I.first + I.length * i / d ≤ x ∧ x < I.first + I.length * (i + 1) / d) := by
  rw [subinterval_eq I d i hdL]
  simp only [Interval.contains, Bool.and_eq_true, decide_eq_true_eq, ge_iff_le]
  have hpos := floor_step_lt I.length d i (by omega) hdL
  generalize I.length * i / d = Y at hpos ⊢
  generalize I.length * (i + 1) / d = X at hpos ⊢
  constructor <;> intro h <;> constructor <;> omega

/-- Every relative position below `L` falls into exactly one block of the
floor split; this lemma provides existence. -/
lemma exists_floor_block (L d rel : Nat) (hd : 1 ≤ d) (hrel : rel < L) :
    ∃ i, i < d ∧ L * i / d ≤ rel ∧ rel < L * (i + 1) / d := by
  have hP0 : L * 0 / d ≤ rel := by simp
  have hile : Nat.findGreatest (fun j => L * j / d ≤ rel) (d - 1) ≤ d - 1 :=
    Nat.findGreatest_le _
  have hPi := @Nat.findGreatest_spec 0 (fun j => L * j / d ≤ rel) _ (d - 1)
    (Nat.zero_le (d - 1)) hP0
  refine ⟨Nat.findGreatest (fun j => L * j / d ≤ rel) (d - 1), by omega, hPi, ?_⟩
  by_cases hcase : Nat.findGreatest (fun j => L * j / d ≤ rel) (d - 1) + 1 ≤ d - 1
  · have hnot := @Nat.findGreatest_is_greatest
      (Nat.findGreatest (fun j => L * j / d ≤ rel) (d - 1) + 1)
      (fun j => L * j / d ≤ rel) _ (d - 1) (Nat.lt_succ_self _) hcase
    exact Nat.not_le.mp hnot
  · have hieq : Nat.findGreatest (fun j => L * j / d ≤ rel) (d - 1) + 1 = d := by omega
    rw [hieq, floor_last L d (by omega)]
    exact hrel

/-- Length of `divide_by` when the divisor fits. -/
lemma divide_by_length (I : Interval) (d : Nat) (hdL : d ≤ I.length) :
    (I.divide_by d).length = d := by
  unfold Interval.divide_by
  rw [if_neg (by omega)]
  simp

/-- Entries of `divide_by` when the divisor fits. -/
lemma divide_by_get (I : Interval) (d : Nat) (hdL : d ≤ I.length)
    (i : Nat) (h : i < (I.divide_by d).length) :
    (I.divide_by d).get ⟨i, h⟩ = I.subinterval d i := by
  have hlist : I.divide_by d = (List.range d).map fun j => I.subinterval d j := by
    unfold Interval.divide_by
    rw [if_neg (by omega)]
  have hi : i < d := by
    have := divide_by_length I d hdL
    omega
  simp only [List.get_eq_getElem]
  rw [List.getElem_of_eq hlist h]
  simp [hi]

/-- Unfolded form of `locate_in_subinterval`. -/
lemma locate_in_subinterval_eq (I : Interval) (d x : Nat) :
    I.locate_in_subinterval d x
      = ((x - I.first) / (I.length / d),
         (x - I.first) - (x - I.first) / (I.length / d) * (I.length / d)) := rfl

/-- Unfolded form of `locate_in_interval`. -/
lemma locate_in_interval_eq (I : Interval) (d i off : Nat) :
    I.locate_in_interval d i off = i * (I.length / d) + off := rfl

/-- The floor split is monotone in the index. -/
lemma floor_mono (L d i j : Nat) (hij : i ≤ j) : L * i / d ≤ L * j / d :=
  Nat.div_le_div_right (Nat.mul_le_mul_left _ hij)

/-- The floor split stays below `L` for indices up to `d`. -/
lemma floor_le (L d j : Nat) (hd : 0 < d) (hj : j ≤ d) : L * j / d ≤ L := by
  have h1 : L * j ≤ L * d := Nat.mul_le_mul_left _ hj
  have h2 : L * j / d ≤ L * d / d := Nat.div_le_div_right h1
  rw [floor_last L d hd] at h2
  exact h2

/-- The list `l` is an exact ordered partition of `I` into `d` pieces:
`d` entries, union equal to `I`, pairwise disjoint entries, each entry
immediately preceding the next, and entry lengths pairwise within 1 of each
other. -/
def ExactPartition (l : List Interval) (I : Interval) (d : Nat) : Prop :=
  l.length = d
  ∧ (∀ x, I.contains x = true ↔
      ∃ i, ∃ h : i < l.length, (l.get ⟨i, h⟩).contains x = true)
  ∧ (∀ i j x (hi : i < l.length) (hj : j < l.length), i ≠ j →
      ¬((l.get ⟨i, hi⟩).contains x = true ∧ (l.get ⟨j, hj⟩).contains x = true))
  ∧ (∀ i (h : i + 1 < l.length),
      (l.get ⟨i, by omega⟩).last + 1 = (l.get ⟨i + 1, h⟩).first)
  ∧ (∀ i j (hi : i < l.length) (hj : j < l.length),
      (l.get ⟨i, hi⟩).length ≤ (l.get ⟨j, hj⟩).length + 1)

/-! ## Claim theorems -/

/-- Claim C1: for `d ≤ L` and `i < d`, `subinterval(d, i)` spans
`[⌊L·i/d⌋, ⌊L·(i+1)/d⌋ − 1]` relative to the interval's start, and the two
unit cases of `Interval(0,9)` come out as the spec lists them. -/
theorem subinterval_range (I : Interval) (d i : Nat) (hI : I.first ≤ I.last)
    (hd : 1 ≤ d) (hdL : d ≤ I.length) (hi : i < d) :
    ((I.subinterval d i).first = I.first + I.length * i / d
      ∧ (I.subinterval d i).last = I.first + (I.length * (i + 1) / d - 1))
    ∧ ((Interval.mk 0 9).subinterval 3 0 = ⟨0, 2⟩
      ∧ (Interval.mk 0 9).subinterval 3 1 = ⟨3, 5⟩
      ∧ (Interval.mk 0 9).subinterval 3 2 = ⟨6, 9⟩)
    ∧ ((Interval.mk 0 9).subinterval 4 0 = ⟨0, 1⟩
      ∧ (Interval.mk 0 9).subinterval 4 1 = ⟨2, 4⟩
      ∧ (Interval.mk 0 9).subinterval 4 2 = ⟨5, 6⟩
      ∧ (Interval.mk 0 9).subinterval 4 3 = ⟨7, 9⟩) := by
  refine ⟨?_, by decide, by decide⟩
  rw [subinterval_eq I d i hdL]
  exact ⟨rfl, rfl⟩

/-- Witness for C1 at `Interval(0,9)`, `d = 4`, `i = 1`. -/
theorem subinterval_range_witness :
    ((Interval.mk 0 9).subinterval 4 1).first = 0 + 10 * 1 / 4
      ∧ ((Interval.mk 0 9).subinterval 4 1).last = 0 + (10 * 2 / 4 - 1) :=
  ((subinterval_range (Interval.mk 0 9) 4 1 (by decide) (by decide) (by decide)
    (by decide)).1)

/-- Claim C2: for `2 ≤ d ≤ L`, `divide_by(d)` returns exactly `d` contiguous
sub-intervals that partition the interval exactly (pairwise disjoint, union
equal to the interval, each piece immediately preceding the next) and whose
lengths differ by at most 1. -/
theorem divide_by_partition (I : Interval) (d : Nat) (hI : I.first ≤ I.last)
    (hd : 2 ≤ d) (hdL : d ≤ I.length) :
    ExactPartition (I.divide_by d) I d := by
  have hd1 : 1 ≤ d := by omega
  have hlen := divide_by_length I d hdL
  have hLdef : I.length = I.last - I.first + 1 := rfl
  refine ⟨hlen, ?_, ?_, ?_, ?_⟩
  · intro x
    constructor
    · intro hx
      simp only [Interval.contains, Bool.and_eq_true, decide_eq_true_eq, ge_iff_le] at hx
      obtain ⟨i, hi, h1, h2⟩ := exists_floor_block I.length d (x - I.first) hd1 (by omega)
      refine ⟨i, by omega, ?_⟩
      rw [divide_by_get I d hdL i (by omega)]
      rw [subinterval_contains_iff I d i x hd1 hdL]
      generalize I.length * i / d = Y at h1 ⊢
      generalize I.length * (i + 1) / d = X at h2 ⊢
      omega
    · rintro ⟨i, h, hx⟩
      rw [divide_by_get I d hdL i h] at hx
      rw [subinterval_contains_iff I d i x hd1 hdL] at hx
      have hub := floor_le I.length d (i + 1) (by omega) (by omega)
      simp only [Interval.contains, Bool.and_eq_true, decide_eq_true_eq, ge_iff_le]
      generalize I.length * i / d = Y at hx
      generalize I.length * (i + 1) / d = X at hx hub
      omega
  · intro i j x hi hj hne
    rintro ⟨hxi, hxj⟩
    rw [divide_by_get I d hdL i hi] at hxi
    rw [divide_by_get I d hdL j hj] at hxj
    rw [subinterval_contains_iff I d i x hd1 hdL] at hxi
    rw [subinterval_contains_iff I d j x hd1 hdL] at hxj
    rcases Nat.lt_or_ge i j with hij | hij
    · have hmono := floor_mono I.length d (i + 1) j hij
      generalize I.length * i / d = Yi at hxi
      generalize I.length * (i + 1) / d = Xi at hxi hmono
      generalize I.length * j / d = Yj at hxj hmono
      omega
    · have hij2 : j < i := by omega
      have hmono := floor_mono I.length d (j + 1) i hij2
      generalize I.length * j / d = Yj at hxj
      generalize I.length * (j + 1) / d = Xj at hxj hmono
      generalize I.length * i / d = Yi at hxi hmono
      omega
  · intro i h
    rw [divide_by_get I d hdL i (by omega), divide_by_get I d hdL (i + 1) h]
    rw [subinterval_eq I d i hdL, subinterval_eq I d (i + 1) hdL]
    have hpos := floor_step_lt I.length d i (by omega) hdL
    show I.first + (I.length * (i + 1) / d - 1) + 1 = I.first + I.length * (i + 1) / d
    generalize I.length * i / d = Y at hpos
    generalize I.length * (i + 1) / d = X at hpos ⊢
    omega
  · intro i j hi hj
    rw [divide_by_get I d hdL i hi, divide_by_get I d hdL j hj]
    have b1 := subinterval_length_bounds I d i hd1 hdL
    have b2 := subinterval_length_bounds I d j hd1 hdL
    generalize (I.subinterval d i).length = Li at b1 ⊢
    generalize (I.subinterval d j).length = Lj at b2 ⊢
    generalize I.length / d = Q at b1 b2
    omega

/-- Witness for C2 at `Interval(0,9)`, `d = 3`. -/
theorem divide_by_partition_witness :
    ExactPartition ((Interval.mk 0 9).divide_by 3) (Interval.mk 0 9) 3 :=
  divide_by_partition (Interval.mk 0 9) 3 (by decide) (by decide) (by decide)

/-- Claim C3 fails as stated: on `Interval(2,5)` with `d = 1` and the
contained element `x = 3`, the round trip through `locate_in_subinterval`
and `locate_in_interval` returns `1`, the start-relative position, not the
absolute element `3`. -/
theorem locate_round_trip_not_absolute :
    (1 : Nat) ≤ (Interval.mk 2 5).length
    ∧ (Interval.mk 2 5).contains 3 = true
    ∧ (Interval.mk 2 5).locate_in_interval 1
        ((Interval.mk 2 5).locate_in_subinterval 1 3).1
        ((Interval.mk 2 5).locate_in_subinterval 1 3).2 = 1
    ∧ (1 : Nat) ≠ 3 := by decide

/-- Claim C3 amended: for every interval, `d ≤ length` and contained `x`,
the round trip `locate_in_interval(d, locate_in_subinterval(d, x))` returns
the start-relative position `x − first()` (hence `x` itself exactly when
the interval starts at 0). -/
theorem locate_round_trip (I : Interval) (d x : Nat) (hI : I.first ≤ I.last)
    (hd : 1 ≤ d) (hdL : d ≤ I.length) (hx : I.contains x = true) :
    I.locate_in_interval d (I.locate_in_subinterval d x).1
        (I.locate_in_subinterval d x).2
      = x - I.first := by
  show (x - I.first) / (I.length / d) * (I.length / d)
      + ((x - I.first) - (x - I.first) / (I.length / d) * (I.length / d)) = x - I.first
  have h := Nat.div_mul_le_self (x - I.first) (I.length / d)
  generalize (x - I.first) / (I.length / d) * (I.length / d) = T at h ⊢
  omega

/-- Witness for C3 (amended) at `Interval(0,9)`, `d = 3`, `x = 7`. -/
theorem locate_round_trip_witness :
    (Interval.mk 0 9).locate_in_interval 3
        ((Interval.mk 0 9).locate_in_subinterval 3 7).1
        ((Interval.mk 0 9).locate_in_subinterval 3 7).2
      = 7 - (Interval.mk 0 9).first :=
  locate_round_trip (Interval.mk 0 9) 3 7 (by decide) (by decide) (by decide) (by decide)

/-- Claim C4 fails as stated: on `Interval(0,9)` with `d = 3 ≤ length` the
contained element `x = 9` is mapped by `locate_in_subinterval` to
sub-interval index `3`, which is not `< d`. -/
theorem locate_in_subinterval_out_of_range :
    (3 : Nat) ≤ (Interval.mk 0 9).length
    ∧ (Interval.mk 0 9).contains 9 = true
    ∧ ((Interval.mk 0 9).locate_in_subinterval 3 9).1 = 3
    ∧ ¬(((Interval.mk 0 9).locate_in_subinterval 3 9).1 < 3) := by decide

/-- Claim C4 amended: when the divisor `d` additionally divides the length,
`locate_in_subinterval(d, x)` returns `(i, off)` with `i < d`,
`subinterval(d, i).first() + off = x` and `off < subinterval(d, i).length()`. -/
theorem locate_in_subinterval_spec (I : Interval) (d x : Nat) (hI : I.first ≤ I.last)
    (hd : 1 ≤ d) (hdL : d ≤ I.length) (hdvd : d ∣ I.length)
    (hx : I.contains x = true) :
    (I.locate_in_subinterval d x).1 < d
    ∧ (I.subinterval d (I.locate_in_subinterval d x).1).first
        + (I.locate_in_subinterval d x).2 = x
    ∧ (I.locate_in_subinterval d x).2
        < (I.subinterval d (I.locate_in_subinterval d x).1).length := by
  obtain ⟨s, hs⟩ := hdvd
  simp only [Interval.contains, Bool.and_eq_true, decide_eq_true_eq, ge_iff_le] at hx
  have hLdef : I.length = I.last - I.first + 1 := rfl
  have hs1 : 0 < s := by
    rcases Nat.eq_zero_or_pos s with h0 | h0
    · subst h0; rw [Nat.mul_zero] at hs; omega
    · exact h0
  have hsub : I.length / d = s := by
    rw [hs]; exact Nat.mul_div_cancel_left s (by omega)
  have hrel : x - I.first < d * s := by rw [← hs]; omega
  have hidx : (x - I.first) / s < d := (Nat.div_lt_iff_lt_mul hs1).mpr hrel
  have hloc : I.locate_in_subinterval d x
      = ((x - I.first) / s, (x - I.first) - (x - I.first) / s * s) := by
    rw [locate_in_subinterval_eq, hsub]
  have hfloor : ∀ j : Nat, I.length * j / d = s * j := by
    intro j
    rw [hs, Nat.mul_assoc]
    exact Nat.mul_div_cancel_left (s * j) (by omega)
  have hfirst : (I.subinterval d ((x - I.first) / s)).first
      = I.first + s * ((x - I.first) / s) := by
    rw [subinterval_eq I d _ hdL, hfloor]
  have hlen2 : (I.subinterval d ((x - I.first) / s)).length = s := by
    rw [subinterval_length_eq I d _ hd hdL, hfloor, hfloor, Nat.mul_succ]
    omega
  rw [hloc]
  refine ⟨hidx, ?_, ?_⟩
  · show (I.subinterval d ((x - I.first) / s)).first
        + ((x - I.first) - (x - I.first) / s * s) = x
    rw [hfirst]
    have hdm := Nat.div_mul_le_self (x - I.first) s
    have hcomm : s * ((x - I.first) / s) = (x - I.first) / s * s := Nat.mul_comm _ _
    generalize (x - I.first) / s * s = T at hdm hcomm ⊢
    generalize s * ((x - I.first) / s) = S at hcomm ⊢
    omega
  · show (x - I.first) - (x - I.first) / s * s
        < (I.subinterval d ((x - I.first) / s)).length
    rw [hlen2]
    have hdm := Nat.div_add_mod (x - I.first) s
    have hmod := Nat.mod_lt (x - I.first) hs1
    have hcomm : s * ((x - I.first) / s) = (x - I.first) / s * s := Nat.mul_comm _ _
    generalize (x - I.first) % s = M at hdm hmod
    generalize (x - I.first) / s * s = B at hcomm ⊢
    generalize s * ((x - I.first) / s) = A at hdm hcomm
    omega

/-- Witness for C4 (amended) at `Interval(0,9)`, `d = 5`, `x = 7`. -/
theorem locate_in_subinterval_spec_witness :
    ((Interval.mk 0 9).locate_in_subinterval 5 7).1 < 5
    ∧ ((Interval.mk 0 9).subinterval 5
          ((Interval.mk 0 9).locate_in_subinterval 5 7).1).first
        + ((Interval.mk 0 9).locate_in_subinterval 5 7).2 = 7
    ∧ ((Interval.mk 0 9).locate_in_subinterval 5 7).2
        < ((Interval.mk 0 9).subinterval 5
            ((Interval.mk 0 9).locate_in_subinterval 5 7).1).length :=
  locate_in_subinterval_spec (Interval.mk 0 9) 5 7 (by decide) (by decide)
    (by decide) (by decide) (by decide)

/-- Claim C5 fails as stated: on `Interval(0,9)` with `d = 3` the lengths of
sub-intervals 1 and 2 are 3 and 4, so the length sequence is not
non-increasing and the larger piece is not at the lower index. -/
theorem subinterval_lengths_not_monotone :
    (3 : Nat) ≤ (Interval.mk 0 9).length
    ∧ ((Interval.mk 0 9).subinterval 3 1).length = 3
    ∧ ((Interval.mk 0 9).subinterval 3 2).length = 4
    ∧ ¬(((Interval.mk 0 9).subinterval 3 2).length
        ≤ ((Interval.mk 0 9).subinterval 3 1).length) := by decide

/-- Claim C5 amended: for `d ≤ L` and `i < d`, every sub-interval length is
`⌊L/d⌋` or `⌊L/d⌋ + 1` (so any two lengths differ by at most 1); smaller and
larger pieces interleave, rather than the lengths being non-increasing in
the index. -/
theorem subinterval_length_near_equal (I : Interval) (d i : Nat) (hI : I.first ≤ I.last)
    (hd : 1 ≤ d) (hdL : d ≤ I.length) (hi : i < d) :
    I.length / d ≤ (I.subinterval d i).length
    ∧ (I.subinterval d i).length ≤ I.length / d + 1 :=
  subinterval_length_bounds I d i hd hdL

/-- Witness for C5 (amended) at `Interval(0,9)`, `d = 4`, `i = 1`. -/
theorem subinterval_length_near_equal_witness :
    (Interval.mk 0 9).length / 4 ≤ ((Interval.mk 0 9).subinterval 4 1).length
    ∧ ((Interval.mk 0 9).subinterval 4 1).length ≤ (Interval.mk 0 9).length / 4 + 1 :=
  subinterval_length_near_equal (Interval.mk 0 9) 4 1 (by decide) (by decide)
    (by decide) (by decide)

/-- Claim C6: construction fails exactly when a bound is negative or the
bounds are out of order; a successful construction stores the bounds and
yields a valid (nonempty, nonnegative) interval. -/
theorem interval_make_spec (a b : Int) :
    (Interval.make a b = none ↔ (a < 0 ∨ b < 0 ∨ a > b))
    ∧ (∀ I, Interval.make a b = some I →
        0 ≤ a ∧ a ≤ b ∧ (I.first : Int) = a ∧ (I.last : Int) = b ∧ I.first ≤ I.last) := by
  unfold Interval.make
  split_ifs with h1 h2
  · refine ⟨⟨fun _ => by omega, fun _ => rfl⟩, fun I hI => by simp at hI⟩
  · refine ⟨⟨fun _ => by omega, fun _ => rfl⟩, fun I hI => by simp at hI⟩
  · refine ⟨⟨fun h => by simp at h, fun h => absurd h (by omega)⟩, fun I hI => ?_⟩
    injection hI with hI'
    subst hI'
    refine ⟨by omega, by omega, ?_, ?_, ?_⟩
    · show ((a.toNat : Nat) : Int) = a
      omega
    · show ((b.toNat : Nat) : Int) = b
      omega
    · show a.toNat ≤ b.toNat
      omega

/-- Witness for C6 at `a = 2`, `b = 5`. -/
theorem interval_make_spec_witness :
    (0 : Int) ≤ 2 ∧ (2 : Int) ≤ 5 ∧ (Interval.mk 2 5).first ≤ (Interval.mk 2 5).last := by
  have h := (interval_make_spec 2 5).2 (Interval.mk 2 5) (by decide)
  exact ⟨h.1, h.2.1, h.2.2.2.2⟩

/-- Claim C7: on a contained coordinate, `local_index(r, c)` is the
column-major linearisation `(c − cols.first)·rows.length + (r − rows.first)`. -/
theorem local_index_spec (P : Interval2D) (r c : Nat)
    (h : P.contains r c = true) :
    P.local_index r c
      = ((c - P.cols.first) * P.rows.length + (r - P.rows.first) : Nat) := by
  unfold Interval2D.local_index
  rw [h]
  rfl

/-- Witness for C7 at `rows = [1,3]`, `cols = [2,5]`, point `(2, 4)`. -/
theorem local_index_spec_witness :
    (Interval2D.mk ⟨1, 3⟩ ⟨2, 5⟩).local_index 2 4
      = (((4 : Nat) - 2) * 3 + ((2 : Nat) - 1) : Nat) :=
  local_index_spec (Interval2D.mk ⟨1, 3⟩ ⟨2, 5⟩) 2 4 (by decide)

/-- Claim C8: `submatrix(d, i)` keeps the row interval and splits only the
column interval. -/
theorem submatrix_spec (P : Interval2D) (d i : Nat)
    (hd : 1 ≤ d) (hi : i < d) (hdL : d ≤ P.cols.length) :
    (P.submatrix d i).rows = P.rows
      ∧ (P.submatrix d i).cols = P.cols.subinterval d i :=
  ⟨rfl, rfl⟩

/-- Witness for C8 at `rows = [0,3]`, `cols = [0,9]`, `d = 2`, `i = 1`. -/
theorem submatrix_spec_witness :
    ((Interval2D.mk ⟨0, 3⟩ ⟨0, 9⟩).submatrix 2 1).rows = Interval.mk 0 3
      ∧ ((Interval2D.mk ⟨0, 3⟩ ⟨0, 9⟩).submatrix 2 1).cols
          = (Interval.mk 0 9).subinterval 2 1 :=
  submatrix_spec (Interval2D.mk ⟨0, 3⟩ ⟨0, 9⟩) 2 1 (by decide) (by decide) (by decide)

/-- Claim C9: when the divisor exceeds the length, `subinterval` returns the
whole interval for every index and `divide_by` returns the one-element list
holding the whole interval. -/
theorem subinterval_whole (I : Interval) (d i : Nat) (h : I.length < d) :
    I.subinterval d i = I ∧ I.divide_by d = [I] := by
  unfold Interval.subinterval Interval.divide_by
  rw [if_pos h, if_pos h]
  exact ⟨rfl, rfl⟩

/-- Witness for C9 at `Interval(3,5)`, `d = 7`, `i = 4`. -/
theorem subinterval_whole_witness :
    (Interval.mk 3 5).subinterval 7 4 = Interval.mk 3 5
      ∧ (Interval.mk 3 5).divide_by 7 = [Interval.mk 3 5] :=
  subinterval_whole (Interval.mk 3 5) 7 4 (by decide)

/-- Claim C10: on a valid interval, `empty()` holds exactly when the interval
has exactly one element; it agrees with `only_one()`, and the interval always
contains its first element, so `empty()` never denotes an empty set. -/
theorem empty_iff_only_one (I : Interval) (hI : I.first ≤ I.last) :
    (I.empty = true ↔ I.length = 1)
    ∧ I.empty = I.only_one
    ∧ I.contains I.first = true
    ∧ (I.empty = true → ∀ x, (I.contains x = true ↔ x = I.first)) := by
  have hiff : I.empty = true ↔ I.length = 1 := by
    unfold Interval.empty Interval.length
    simp only [beq_iff_eq]
    omega
  refine ⟨hiff, ?_, ?_, ?_⟩
  · have h2 : I.only_one = true ↔ I.length = 1 := by
      unfold Interval.only_one
      simp only [beq_iff_eq]
    by_cases h : I.length = 1
    · rw [hiff.mpr h, (h2.mpr h)]
    · have e1 : I.empty ≠ true := fun hc => h (hiff.mp hc)
      have e2 : I.only_one ≠ true := fun hc => h (h2.mp hc)
      simp only [Bool.not_eq_true] at e1 e2
      rw [e1, e2]
  · unfold Interval.contains
    simp [hI]
  · intro he x
    have hfl : I.first = I.last := by
      have := hiff.mp he
      unfold Interval.length at this
      omega
    unfold Interval.contains
    simp only [Bool.and_eq_true, decide_eq_true_eq]
    omega

/-- Witness for C10 at `Interval(4,4)`. -/
theorem empty_iff_only_one_witness :
    ((Interval.mk 4 4).empty = true ↔ (Interval.mk 4 4).length = 1)
    ∧ (Interval.mk 4 4).empty = (Interval.mk 4 4).only_one
    ∧ (Interval.mk 4 4).contains (Interval.mk 4 4).first = true
    ∧ ((Interval.mk 4 4).empty = true →
        ∀ x, ((Interval.mk 4 4).contains x = true ↔ x = (Interval.mk 4 4).first)) :=
  empty_iff_only_one (Interval.mk 4 4) (by decide)

end Cosma
